import Mathlib

/-
Verification of the mesher module (3MF/STL export/import) of build123d.

The development shallowly embeds the pure algorithmic core of
`src/build123d/mesher.py`:

* `Mesher._create_3mf_mesh` (vertex welding by rounding, degenerate
  triangle filtering) is embedded as `weld` / `filterTris` / `createMesh`;
* `Mesher.add_shape` per-leaf processing as `addShapeGo`;
* `Mesher._get_shape` reconstruction control flow as `getShapeCode`,
  with the opaque OCCT sewing/manifold kernel abstracted as `SewKernel`;
* the unit and mesh-type translation dictionaries as association lists;
* `Mesher.read` / `Mesher.write` extension handling and mesh accumulation
  as `readModel` / `writeModel` over an abstract file store;
* the deep-copy-before-tessellation discipline of `add_shape` as a small
  explicit-heap model (`addShapeRefs`).

Python floats are embedded as exact rationals; Python `round(x, n)` as
round-half-to-even on rationals; Python dicts (insertion ordered) as
association lists; fallible operations (dict/list indexing that can raise
`KeyError`/`IndexError`) return `Option`/`Except`.
-/

set_option autoImplicit false

namespace MesherV

/-- A 3D point: the (x, y, z) coordinate triples of mesher.py, with exact
rational coordinates standing in for Python floats. -/
abbrev Pt : Type := ℚ × ℚ × ℚ

/-- A triangle: three indices into a vertex list
(mesher.py stores triangles as 3-element lists of vertex indices). -/
abbrev Tri : Type := ℕ × ℕ × ℕ

/-- Round half to even to an integer: the semantics of Python's built-in
`round` (banker's rounding), idealized over exact rationals. -/
def rndHalfEven (x : ℚ) : ℤ :=
  if x - ⌊x⌋ < 1/2 then ⌊x⌋
  else if 1/2 < x - ⌊x⌋ then ⌊x⌋ + 1
  else if ⌊x⌋ % 2 = 0 then ⌊x⌋ else ⌊x⌋ + 1

/-- Python `round(x, d)` for a natural number of decimal places `d`:
round half to even at `d` decimal places. -/
def roundTo (d : ℕ) (x : ℚ) : ℚ := (rndHalfEven (x * 10 ^ d) : ℚ) / 10 ^ d

/-- Modelled from the spec: the library-wide geometric tolerance constant
`TOLERANCE` is imported by mesher.py from `build123d.geometry`, whose
source is not part of the sources at hand; the spec gives the example
value 1e-4 length units. -/
def TOLERANCE : ℚ := 1 / 10 ^ 4

/-- Value of `digits = -int(round(math.log(TOLERANCE, 10), 1))`
(mesher.py line 314) at the spec-modelled `TOLERANCE = 1e-4`:
`log10(1e-4) = -4`, so `digits = 4`. -/
def digits : ℕ := 4

/-- Quantized key of a raw vertex: every coordinate rounded to `d` decimal
places (mesher.py line 323,
`key = (round(x, digits), round(y, digits), round(z, digits))`). -/
def quantize (d : ℕ) (p : Pt) : Pt :=
  (roundTo d p.1, roundTo d p.2.1, roundTo d p.2.2)

/-- First-match association lookup: the behaviour of indexing a Python
dict represented as its insertion-ordered (key, value) list. -/
def alookup {α β : Type} [DecidableEq α] : List (α × β) → α → Option β
  | [], _ => none
  | (k, v) :: rest, key => if k = key then some v else alookup rest key

/-- Pair every element of a list with its position, starting at `n`. -/
def idxAssoc {α : Type} : List α → ℕ → List (α × ℕ)
  | [], _ => []
  | k :: ks, n => (k, n) :: idxAssoc ks (n + 1)

/-- Position of the first occurrence of an element in a list
(the list's length when absent). -/
def pidx {α : Type} [DecidableEq α] : List α → α → ℕ
  | [], _ => 0
  | k :: ks, a => if k = a then 0 else pidx ks a + 1

/-- First-occurrence deduplication relative to an already-seen list:
keeps each element not in `seen` at its first occurrence, in order. -/
def dedupGo {α : Type} [DecidableEq α] (seen : List α) : List α → List α
  | [] => []
  | k :: ks => if k ∈ seen then dedupGo seen ks else k :: dedupGo (seen ++ [k]) ks

/-- First-occurrence deduplication of a list. -/
def firstDedup {α : Type} [DecidableEq α] (l : List α) : List α := dedupGo [] l

/-- Reference computation of the index table built by the welding loop:
for each key in order, the canonical index it is assigned (its position
among the distinct keys, counting those in `seen` first). -/
def tableGo {α : Type} [DecidableEq α] (seen : List α) : List α → List ℕ
  | [] => []
  | k :: ks =>
    if k ∈ seen then pidx seen k :: tableGo seen ks
    else seen.length :: tableGo (seen ++ [k]) ks

/-- State of the welding loop of `Mesher._create_3mf_mesh`
(mesher.py lines 316-327): the insertion-ordered dict `vertex_to_idx`,
the counter `next_idx`, and the raw-index-to-canonical-index table
`vert_table` (a dict keyed 0,1,2,..., i.e. a list). -/
structure WeldSt where
  vertexToIdx : List (Pt × ℕ)
  nextIdx : ℕ
  vertTable : List ℕ
deriving DecidableEq, Repr

/-- One iteration of the welding loop (mesher.py lines 322-327). -/
def weldStep (d : ℕ) (s : WeldSt) (p : Pt) : WeldSt :=
  match alookup s.vertexToIdx (quantize d p) with
  | some j => ⟨s.vertexToIdx, s.nextIdx, s.vertTable ++ [j]⟩
  | none =>
    ⟨s.vertexToIdx ++ [(quantize d p, s.nextIdx)], s.nextIdx + 1,
      s.vertTable ++ [s.nextIdx]⟩

/-- The welding loop over the remaining raw vertices. -/
def weldGo (d : ℕ) (s : WeldSt) : List Pt → WeldSt
  | [] => s
  | p :: ps => weldGo d (weldStep d s p) ps

/-- The complete first pass of `Mesher._create_3mf_mesh` over the raw
vertex list (mesher.py lines 316-327). -/
def weld (d : ℕ) (vs : List Pt) : WeldSt := weldGo d ⟨[], 0, []⟩ vs

/-- The output vertex list of `Mesher._create_3mf_mesh`: the keys of
`vertex_to_idx` in insertion order (mesher.py lines 330-333,
`for v in vertex_to_idx.keys()`).  Note these are the rounded keys. -/
def weldVertices (d : ℕ) (vs : List Pt) : List Pt :=
  (weld d vs).vertexToIdx.map Prod.fst

/-- The claim's far-apart condition: the two points differ by more than
`tol` on some axis. -/
def farApart (tol : ℚ) (p q : Pt) : Prop :=
  tol < |p.1 - q.1| ∨ tol < |p.2.1 - q.2.1| ∨ tol < |p.2.2 - q.2.2|

/-- Default point for `List.getD` on vertex lists. -/
def pt0 : Pt := (0, 0, 0)

/-- Mapping of one raw triangle's three indices through `vert_table`
(mesher.py lines 342-345); a missing entry is Python's `KeyError`. -/
def mapTri (table : List ℕ) (t : Tri) : Option Tri :=
  match table[t.1]?, table[t.2.1]?, table[t.2.2]? with
  | some a, some b, some c => some (a, b, c)
  | _, _, _ => none

/-- The degenerate check of mesher.py line 348:
`mapped_a != mapped_b and mapped_b != mapped_c and mapped_c != mapped_a`. -/
def distinct3 (t : Tri) : Prop := t.1 ≠ t.2.1 ∧ t.2.1 ≠ t.2.2 ∧ t.2.2 ≠ t.1

instance distinct3.dec (t : Tri) : Decidable (distinct3 t) := by
  unfold distinct3
  infer_instance

/-- The triangle loop of `Mesher._create_3mf_mesh` (lines 336-349): map
each triangle's indices through the table in input order, keeping it only
when the three mapped indices are pairwise distinct. -/
def filterTris (table : List ℕ) : List Tri → Option (List Tri)
  | [] => some []
  | t :: ts => do
    let m ← mapTri table t
    let rest ← filterTris table ts
    pure (if distinct3 m then m :: rest else rest)

/-- The whole of `Mesher._create_3mf_mesh`: welded vertex list (the dict
keys) plus filtered triangles (mesher.py lines 307-351). -/
def createMesh (d : ℕ) (vs : List Pt) (tris : List Tri) : Option (List Pt × List Tri) :=
  (filterTris (weld d vs).vertTable tris).map (fun ts => (weldVertices d vs, ts))

/-- Per-triangle outcome of the degenerate filter, as an `Option`. -/
def triOut (table : List ℕ) (t : Tri) : Option Tri :=
  (mapTri table t).bind (fun m => if distinct3 m then some m else none)

/-- The build123d `Unit` enumeration members used by mesher.py. -/
inductive BUnit where
  | MC
  | MM
  | CM
  | IN
  | FT
  | M
deriving DecidableEq, Fintype, Repr

/-- The `Lib3MF.ModelUnit` enumeration. -/
inductive ModelUnit3mf where
  | MicroMeter
  | MilliMeter
  | CentiMeter
  | Inch
  | Foot
  | Meter
deriving DecidableEq, Fintype, Repr

/-- The build123d `MeshType` enumeration. -/
inductive BMeshType where
  | OTHER
  | MODEL
  | SUPPORT
  | SOLIDSUPPORT
deriving DecidableEq, Fintype, Repr

/-- The `Lib3MF.ObjectType` enumeration. -/
inductive ObjectType3mf where
  | Other
  | Model
  | Support
  | SolidSupport
deriving DecidableEq, Fintype, Repr

/-- Table `Mesher._map_b3d_to_3mf_unit` (mesher.py lines 129-136), as the
insertion-ordered entry list of the dict literal. -/
def map_b3d_to_3mf_unit : List (BUnit × ModelUnit3mf) :=
  [(BUnit.MC, ModelUnit3mf.MicroMeter),
   (BUnit.MM, ModelUnit3mf.MilliMeter),
   (BUnit.CM, ModelUnit3mf.CentiMeter),
   (BUnit.IN, ModelUnit3mf.Inch),
   (BUnit.FT, ModelUnit3mf.Foot),
   (BUnit.M, ModelUnit3mf.Meter)]

/-- Table `Mesher._map_3mf_to_b3d_unit` (mesher.py line 138): the dict
comprehension `{v: k for k, v in _map_b3d_to_3mf_unit.items()}`. -/
def map_3mf_to_b3d_unit : List (ModelUnit3mf × BUnit) :=
  map_b3d_to_3mf_unit.map (fun kv => (kv.2, kv.1))

/-- Table `Mesher._map_b3d_mesh_type_3mf` (mesher.py lines 141-146). -/
def map_b3d_mesh_type_3mf : List (BMeshType × ObjectType3mf) :=
  [(BMeshType.OTHER, ObjectType3mf.Other),
   (BMeshType.MODEL, ObjectType3mf.Model),
   (BMeshType.SUPPORT, ObjectType3mf.Support),
   (BMeshType.SOLIDSUPPORT, ObjectType3mf.SolidSupport)]

/-- Table `Mesher._map_3mf_to_b3d_mesh_type` (mesher.py line 148): the dict
comprehension inverting the forward table. -/
def map_3mf_to_b3d_mesh_type : List (ObjectType3mf × BMeshType) :=
  map_b3d_mesh_type_3mf.map (fun kv => (kv.2, kv.1))

/-- A warning emitted by `add_shape` through `warnings.warn`. -/
inductive Warn where
  | degenerate (shapeId : ℕ)
  | nonManifold
deriving DecidableEq, Repr

/-- A fatal error raised by `add_shape`. -/
inductive MErr where
  | keyError
  | invalidMesh
deriving DecidableEq, Repr

/-- One leaf shape's tessellation result (`Mesher._mesh_shape` output),
tagged with an identifier standing in for the Python object named in the
degenerate-shape warning message. -/
structure RawShape where
  shapeId : ℕ
  vertices : List Pt
  triangles : List Tri
deriving DecidableEq, Repr

/-- The Mesher state visible to `add_shape`/`read`: the in-memory unit,
the lib3mf model's unit, the count of mesh objects created in the model by
`model.AddMeshObject`, the accumulated `self.meshes` entries with their
geometry, the build-item count, and the warnings emitted so far. -/
structure MState where
  unit : BUnit
  modelUnit : ModelUnit3mf
  modelMeshObjects : ℕ
  meshes : List (List Pt × List Tri)
  buildItems : ℕ
  warnings : List Warn
deriving DecidableEq, Repr

/-- Constructor `Mesher.__init__` (mesher.py lines 150-156): store the unit and set the
model's unit through the forward table. -/
def initMesher (u : BUnit) : Option MState :=
  (alookup map_b3d_to_3mf_unit u).map (fun mu => ⟨u, mu, 0, [], 0, []⟩)

/-- The per-shape loop of `Mesher.add_shape` (mesher.py lines 399-452),
with the lib3mf validity and manifold checks as oracles `v` and `m`:
create a mesh object in the model, skip (with a warning) when the raw
tessellation has fewer than 3 vertices or no triangles, otherwise weld and
filter, raise when the built mesh is invalid, warn when it is not
manifold, and append the entry. -/
def addShapeGo (d : ℕ) (v m : (List Pt × List Tri) → Bool) (st : MState) :
    List RawShape → Except MErr MState
  | [] => .ok st
  | rm :: rest =>
    let st1 : MState := { st with modelMeshObjects := st.modelMeshObjects + 1 }
    if rm.vertices.length < 3 ∨ rm.triangles = [] then
      addShapeGo d v m
        { st1 with warnings := st1.warnings ++ [Warn.degenerate rm.shapeId] } rest
    else
      match createMesh d rm.vertices rm.triangles with
      | none => .error .keyError
      | some geo =>
        if v geo then
          let st2 : MState := if m geo then st1
            else { st1 with warnings := st1.warnings ++ [Warn.nonManifold] }
          addShapeGo d v m
            { st2 with
              meshes := st2.meshes ++ [geo]
              buildItems := st2.buildItems + 1 } rest
        else .error .invalidMesh

/-- A triangular face through three points. -/
abbrev Face : Type := Pt × Pt × Pt

/-- Squared norm of the cross product of two edge vectors of the face:
the planar triangular face built by `BRepBuilderAPI_MakeFace` has zero
area (`facet_properties.Mass() == 0`, mesher.py line 472) iff this is 0. -/
def faceCross2 : Face → ℚ
  | ((ax, ay, az), (bx, b2, bz), (cx, cy, cz)) =>
    ((b2 - ay) * (cz - az) - (bz - az) * (cy - ay)) ^ 2 +
    ((bz - az) * (cx - ax) - (bx - ax) * (cz - az)) ^ 2 +
    ((bx - ax) * (cy - ay) - (b2 - ay) * (cx - ax)) ^ 2

/-- Looking up the three corner points of a triangle
(`[gp_pnts[tri_indices[i]] for i in range(3)]`, mesher.py line 465); a bad
index is Python's `IndexError`. -/
def buildFace (verts : List Pt) (t : Tri) : Option Face :=
  match verts[t.1]?, verts[t.2.1]?, verts[t.2.2]? with
  | some a, some b, some c => some (a, b, c)
  | _, _, _ => none

/-- The face-construction loop of `Mesher._get_shape` (mesher.py lines
461-473): build the face of each triangle in order and keep it only when
its area is nonzero. -/
def getShapeFaces (verts : List Pt) : List Tri → Option (List Face)
  | [] => some []
  | t :: ts => do
    let f ← buildFace verts t
    let rest ← getShapeFaces verts ts
    pure (if faceCross2 f = 0 then rest else f :: rest)

/-- The opaque OCCT operations used by `_get_shape`: sewing a face list
into a shape (identified by a number), testing whether the sewn shape is a
compound, enumerating its shells, and the `is_manifold` test on the shell
wrapping a shape. -/
structure SewKernel where
  sew : List Face → ℕ
  isCompound : ℕ → Bool
  shells : ℕ → List ℕ
  manifold : ℕ → Bool

/-- The shape returned by `_get_shape`: either one solid built from a list
of shells, or a shell wrapping the sewn shape. -/
inductive Recon where
  | solidOf (shellIds : List ℕ)
  | shellOf (sewedId : ℕ)
deriving DecidableEq, Repr

/-- Control flow of `Mesher._get_shape` (mesher.py lines 454-494): sew the
surviving faces; when the sewn shape is a compound enumerate its shells,
otherwise use the sewn shape as the only shell; wrap the whole sewn shape
as a shell and, when that shell is manifold, build a single solid from all
the enumerated shells. -/
def getShapeCode (K : SewKernel) (verts : List Pt) (tris : List Tri) : Option Recon := do
  let faces ← getShapeFaces verts tris
  let sewed := K.sew faces
  let occShells := if K.isCompound sewed then K.shells sewed else [sewed]
  pure (if K.manifold sewed then Recon.solidOf occShells else Recon.shellOf sewed)

/-- The claim's reading of the promotion rule, for comparison: each
enumerated shell is considered separately and promoted to its own solid
iff that shell is manifold. -/
def getShapeSpecList (K : SewKernel) (verts : List Pt) (tris : List Tri) :
    Option (List Recon) := do
  let faces ← getShapeFaces verts tris
  let sewed := K.sew faces
  let occShells := if K.isCompound sewed then K.shells sewed else [sewed]
  pure (occShells.map
    (fun s => if K.manifold s then Recon.solidOf [s] else Recon.shellOf s))

/-- Errors surfaced by `read`/`write`. -/
inductive RWErr where
  | valueError (ext : String)
  | fileNotFound
  | keyError
deriving DecidableEq, Repr

/-- A 3MF container file: a declared model unit and mesh objects. -/
structure File3mf where
  modelUnit : ModelUnit3mf
  meshObjects : List (List Pt × List Tri)
deriving DecidableEq, Repr

/-- Python `str.rfind` of a single character, index accumulator form. -/
def rfindAux (c : Char) : List Char → ℕ → Int → Int
  | [], _, acc => acc
  | x :: xs, i, acc => rfindAux c xs (i + 1) (if x = c then (i : Int) else acc)

/-- Python `str.rfind` of a single character: greatest index, or -1. -/
def rfindChar (c : Char) (l : List Char) : Int := rfindAux c l 0 (-1)

/-- Outcome of the scanning loop inside `posixpath.splitext`: the loop
splits off an extension iff some position in `[start, stop)` holds a
character other than the extension separator. -/
def hasNonSep (l : List Char) (start stop : Int) : Bool :=
  (List.range l.length).any
    (fun k => decide (start ≤ (k : Int)) && decide ((k : Int) < stop) &&
      decide (l.getD k '.' ≠ '.'))

/-- Python `os.path.splitext` (posixpath) on character lists: split at the last
dot when it lies after the last slash and the base name up to it is not
all dots. -/
def splitextList (l : List Char) : List Char × List Char :=
  if rfindChar '/' l < rfindChar '.' l ∧
      hasNonSep l (rfindChar '/' l + 1) (rfindChar '.' l) = true
  then (l.take (rfindChar '.' l).toNat, l.drop (rfindChar '.' l).toNat)
  else (l, [])

/-- The extension part of `os.path.splitext(file_name)`. -/
def splitextExt (s : String) : String := String.mk (splitextList s.data).2

/-- Reconstruction `Mesher._get_shape` applied to every accumulated mesh, in order
(the loop of mesher.py lines 521-535). -/
def reconAll (K : SewKernel) : List (List Pt × List Tri) → Option (List Recon)
  | [] => some []
  | g :: gs => do
    let r ← getShapeCode K g.1 g.2
    let rs ← reconAll K gs
    pure (r :: rs)

/-- Method `Mesher.read` (mesher.py lines 496-537) over an abstract file store
`fs`: check the extension (raising `ValueError` otherwise, before any file
access), look the file up (a missing file propagates as the not-found
error), update the in-memory unit from the file's declared unit through
the inverse table, append the file's mesh objects to the accumulated mesh
list, and reconstruct one shape from every accumulated mesh. -/
def readModel (K : SewKernel) (fs : String → Option File3mf) (st : MState)
    (fileName : String) : Except RWErr (MState × List Recon) :=
  if splitextExt fileName = ".3mf" ∨ splitextExt fileName = ".stl" then
    match fs fileName with
    | none => .error .fileNotFound
    | some f =>
      match alookup map_3mf_to_b3d_unit f.modelUnit with
      | none => .error .keyError
      | some u =>
        let st2 : MState := { st with
          unit := u
          modelUnit := f.modelUnit
          meshes := st.meshes ++ f.meshObjects }
        match reconAll K st2.meshes with
        | none => .error .keyError
        | some shapes => .ok (st2, shapes)
  else .error (.valueError (splitextExt fileName))

/-- Method `Mesher.write` (mesher.py lines 539-553): check the extension (raising
`ValueError` otherwise) and persist the container. -/
def writeModel (st : MState) (fileName : String) : Except RWErr (String × File3mf) :=
  if splitextExt fileName = ".3mf" ∨ splitextExt fileName = ".stl"
  then .ok (fileName, ⟨st.modelUnit, st.meshes⟩)
  else .error (.valueError (splitextExt fileName))

/-- Round trip of the model unit: create a container with unit `u`
(`__init__` sets the model unit through the forward table), write it, read
the written file back on a fresh default-unit container, and report the
in-memory unit (`read` maps the file's unit through the inverse table). -/
def writeReadUnit (K : SewKernel) (u : BUnit) : Option BUnit :=
  match initMesher u with
  | none => none
  | some st =>
    match writeModel st "f.3mf" with
    | .error _ => none
    | .ok (_, f) =>
      match initMesher BUnit.MM with
      | none => none
      | some st2 =>
        match readModel K (fun _ => some f) st2 "f.3mf" with
        | .error _ => none
        | .ok (st3, _) => some st3.unit

/-- A trivial sewing kernel used for concrete instances. -/
def k1 : SewKernel := ⟨fun _ => 0, fun _ => false, fun _ => [], fun _ => false⟩

/-- A build123d `Shape` object on the Python heap: a geometric payload and
the mutable cached-triangulation slot that tessellation may write. -/
structure ShapeObj where
  geom : ℕ
  cache : ℕ
deriving DecidableEq, Inhabited, Repr

/-- The Python heap: objects addressed by reference (list index). -/
abbrev Heap : Type := List ShapeObj

/-- Python `copy.deepcopy` (mesher.py line 405): allocate a fresh object holding
the same value and return its reference. -/
def deepcopy (h : Heap) (r : ℕ) : Heap × ℕ := (h ++ [h.getD r default], h.length)

/-- Tessellation as a mutation of the addressed heap object
(`BRepMesh_IncrementalMesh` may update the shape's cached triangulation);
the mutation itself is an arbitrary oracle `f`. -/
def tessellateAt (f : ShapeObj → ShapeObj) (h : Heap) (r : ℕ) : Heap :=
  h.set r (f (h.getD r default))

/-- The per-leaf tessellation discipline of `add_shape` (mesher.py lines
404-408): each leaf is deep-copied and tessellation runs on the copy. -/
def addShapeRefs (f : ShapeObj → ShapeObj) (h : Heap) : List ℕ → Heap
  | [] => h
  | r :: rs => addShapeRefs f (tessellateAt f (deepcopy h r).1 (deepcopy h r).2) rs

/-- Kernel for the C4 concrete instance: the sewn shape (id 0) is a
compound of two shells (ids 1 and 2); shell 1 is manifold, the whole sewn
shell and shell 2 are not. -/
def k0 : SewKernel := ⟨fun _ => 0, fun _ => true, fun _ => [1, 2], fun n => n == 1⟩

/-- Vertex list of a single nondegenerate triangle. -/
def c4verts : List Pt := [((0 : ℚ), (0 : ℚ), (0 : ℚ)), ((1 : ℚ), (0 : ℚ), (0 : ℚ)),
  ((0 : ℚ), (1 : ℚ), (0 : ℚ))]

/-- Its triangle list. -/
def c4tris : List Tri := [(0, 1, 2)]

/-- A shape whose tessellation has three distinct vertices but whose only
triangle repeats a vertex index, so no triangle survives the filter. -/
def c2shape : RawShape := ⟨7, c4verts, [(0, 0, 1)]⟩

/-- The initial Mesher state with default unit MM. -/
def st0 : MState := ⟨BUnit.MM, ModelUnit3mf.MilliMeter, 0, [], 0, []⟩

theorem alookup_idxAssoc {α : Type} [DecidableEq α] (S : List α) (n : ℕ) (a : α) :
    alookup (idxAssoc S n) a = if a ∈ S then some (n + pidx S a) else none := by
  induction S generalizing n with
  | nil => simp [alookup, idxAssoc]
  | cons k ks ih =>
    simp only [idxAssoc, alookup, pidx]
    by_cases hk : k = a
    · subst hk
      simp
    · rw [if_neg hk, ih]
      by_cases hm : a ∈ ks
      · have : a ∈ k :: ks := List.mem_cons_of_mem _ hm
        rw [if_pos hm, if_pos this, if_neg hk]
        have : n + 1 + pidx ks a = n + (pidx ks a + 1) := by omega
        rw [this]
      · have : a ∉ k :: ks := by
          intro hc
          rcases List.mem_cons.mp hc with h | h
          · exact hk h.symm
          · exact hm h
        rw [if_neg hm, if_neg this]

theorem idxAssoc_append {α : Type} (S : List α) (k : α) (n : ℕ) :
    idxAssoc (S ++ [k]) n = idxAssoc S n ++ [(k, n + S.length)] := by
  induction S generalizing n with
  | nil => simp [idxAssoc]
  | cons x xs ih =>
    have hc : (x :: xs) ++ [k] = x :: (xs ++ [k]) := rfl
    rw [hc]
    simp only [idxAssoc, List.length_cons]
    rw [ih]
    have hn : n + 1 + xs.length = n + (xs.length + 1) := by omega
    rw [hn]
    rfl

/-- Characterization of the welding loop: starting from a state whose dict
holds the distinct keys `S` (with consecutive indices) the loop extends the
dict by the first-occurrence deduplication of the remaining quantized keys
and appends the reference index table. -/
theorem weldGo_spec (d : ℕ) (ps : List Pt) :
    ∀ (S : List Pt) (t : List ℕ),
      weldGo d ⟨idxAssoc S 0, S.length, t⟩ ps =
        ⟨idxAssoc (S ++ dedupGo S (ps.map (quantize d))) 0,
          (S ++ dedupGo S (ps.map (quantize d))).length,
          t ++ tableGo S (ps.map (quantize d))⟩ := by
  induction ps with
  | nil =>
    intro S t
    simp [weldGo, dedupGo, tableGo]
  | cons p ps ih =>
    intro S t
    by_cases hm : quantize d p ∈ S
    · have hl : alookup (idxAssoc S 0) (quantize d p) = some (pidx S (quantize d p)) := by
        rw [alookup_idxAssoc, if_pos hm]
        simp
      simp only [weldGo, weldStep, hl]
      rw [ih S (t ++ [pidx S (quantize d p)])]
      simp only [List.map_cons, dedupGo, tableGo, if_pos hm]
      rw [List.append_assoc]
      simp
    · have hl : alookup (idxAssoc S 0) (quantize d p) = none := by
        rw [alookup_idxAssoc, if_neg hm]
      simp only [weldGo, weldStep, hl]
      have h1 : idxAssoc S 0 ++ [(quantize d p, S.length)] = idxAssoc (S ++ [quantize d p]) 0 := by
        rw [idxAssoc_append]
        simp
      have h2 : S.length + 1 = (S ++ [quantize d p]).length := by simp
      rw [h1, h2, ih (S ++ [quantize d p]) (t ++ [S.length])]
      simp only [List.map_cons, dedupGo, tableGo, if_neg hm]
      simp [List.append_assoc]

/-- The welder, in closed form: the dict keys are the first-occurrence
deduplication of the quantized raw vertices, indexed consecutively, and the
table is the reference table. -/
theorem weld_eq (d : ℕ) (vs : List Pt) :
    weld d vs =
      ⟨idxAssoc (firstDedup (vs.map (quantize d))) 0,
        (firstDedup (vs.map (quantize d))).length,
        tableGo [] (vs.map (quantize d))⟩ := by
  have h := weldGo_spec d vs [] []
  simpa [weld, firstDedup, idxAssoc] using h

theorem idxAssoc_map_fst {α : Type} (S : List α) (n : ℕ) :
    (idxAssoc S n).map Prod.fst = S := by
  induction S generalizing n with
  | nil => simp [idxAssoc]
  | cons x xs ih => simp [idxAssoc, ih]

/-- The output vertex list is exactly the quantized keys of the raw
vertices, first occurrences only, in first-occurrence order. -/
theorem weldVertices_eq (d : ℕ) (vs : List Pt) :
    weldVertices d vs = firstDedup (vs.map (quantize d)) := by
  rw [weldVertices, weld_eq]
  exact idxAssoc_map_fst _ _

theorem tableGo_length {α : Type} [DecidableEq α] (ks : List α) :
    ∀ S : List α, (tableGo S ks).length = ks.length := by
  induction ks with
  | nil => intro S; simp [tableGo]
  | cons k ks ih =>
    intro S
    simp only [tableGo]
    by_cases hm : k ∈ S
    · rw [if_pos hm]
      simp [ih]
    · rw [if_neg hm]
      simp [ih]

/-- The welder records an index-table entry for every raw vertex. -/
theorem weld_table_length (d : ℕ) (vs : List Pt) :
    (weld d vs).vertTable.length = vs.length := by
  rw [weld_eq]
  simp [tableGo_length]

theorem pidx_lt_of_mem {α : Type} [DecidableEq α] {S : List α} {a : α}
    (h : a ∈ S) : pidx S a < S.length := by
  induction S with
  | nil => cases h
  | cons k ks ih =>
    simp only [pidx, List.length_cons]
    by_cases hk : k = a
    · rw [if_pos hk]; omega
    · rw [if_neg hk]
      have : a ∈ ks := by
        rcases List.mem_cons.mp h with h1 | h1
        · exact absurd h1.symm hk
        · exact h1
      have := ih this
      omega

theorem pidx_append_of_mem {α : Type} [DecidableEq α] {S : List α} (T : List α)
    {a : α} (h : a ∈ S) : pidx (S ++ T) a = pidx S a := by
  induction S with
  | nil => cases h
  | cons k ks ih =>
    simp only [List.cons_append, pidx]
    by_cases hk : k = a
    · rw [if_pos hk, if_pos hk]
    · rw [if_neg hk, if_neg hk]
      have hmem : a ∈ ks := by
        rcases List.mem_cons.mp h with h1 | h1
        · exact absurd h1.symm hk
        · exact h1
      have := ih hmem
      simp only [List.append_eq] at this ⊢
      omega

theorem pidx_append_of_not_mem {α : Type} [DecidableEq α] {S : List α} (T : List α)
    {a : α} (h : a ∉ S) : pidx (S ++ T) a = S.length + pidx T a := by
  induction S with
  | nil => simp
  | cons k ks ih =>
    simp only [List.cons_append, pidx, List.length_cons]
    have hk : k ≠ a := fun hc => h (hc ▸ List.mem_cons_self k ks)
    have hm : a ∉ ks := fun hc => h (List.mem_cons_of_mem _ hc)
    rw [if_neg hk]
    have := ih hm
    simp only [List.append_eq] at this ⊢
    omega

theorem pidx_inj {α : Type} [DecidableEq α] {S : List α} {a b : α}
    (ha : a ∈ S) (hb : b ∈ S) (h : pidx S a = pidx S b) : a = b := by
  induction S with
  | nil => cases ha
  | cons k ks ih =>
    simp only [pidx] at h
    by_cases hka : k = a
    · by_cases hkb : k = b
      · rw [← hka, hkb]
      · rw [if_pos hka, if_neg hkb] at h
        omega
    · by_cases hkb : k = b
      · rw [if_neg hka, if_pos hkb] at h
        omega
      · rw [if_neg hka, if_neg hkb] at h
        have ha2 : a ∈ ks := by
          rcases List.mem_cons.mp ha with h1 | h1
          · exact absurd h1.symm hka
          · exact h1
        have hb2 : b ∈ ks := by
          rcases List.mem_cons.mp hb with h1 | h1
          · exact absurd h1.symm hkb
          · exact h1
        exact ih ha2 hb2 (by omega)

theorem mem_dedupGo_of_mem {α : Type} [DecidableEq α] {ks : List α} :
    ∀ {S : List α} {a : α}, a ∈ ks → a ∈ S ∨ a ∈ dedupGo S ks := by
  induction ks with
  | nil => intro S a h; cases h
  | cons k ks ih =>
    intro S a h
    simp only [dedupGo]
    by_cases hm : k ∈ S
    · rw [if_pos hm]
      rcases List.mem_cons.mp h with h1 | h1
      · exact Or.inl (h1 ▸ hm)
      · exact ih h1
    · rw [if_neg hm]
      rcases List.mem_cons.mp h with h1 | h1
      · exact Or.inr (h1 ▸ List.mem_cons_self k _)
      · rcases ih (S := S ++ [k]) h1 with h2 | h2
        · rcases List.mem_append.mp h2 with h3 | h3
          · exact Or.inl h3
          · have : a = k := List.mem_singleton.mp h3
            exact Or.inr (this ▸ List.mem_cons_self k _)
        · exact Or.inr (List.mem_cons_of_mem _ h2)

/-- Every entry of the reference index table is a valid index into the
deduplicated key list. -/
theorem tableGo_mem_lt {α : Type} [DecidableEq α] (ks : List α) :
    ∀ (S : List α) (v : ℕ), v ∈ tableGo S ks → v < S.length + (dedupGo S ks).length := by
  induction ks with
  | nil => intro S v h; cases h
  | cons k ks ih =>
    intro S v h
    simp only [tableGo, dedupGo] at h ⊢
    by_cases hm : k ∈ S
    · rw [if_pos hm] at h ⊢
      rcases List.mem_cons.mp h with h1 | h1
      · have := pidx_lt_of_mem hm
        omega
      · exact ih S v h1
    · rw [if_neg hm] at h ⊢
      simp only [List.length_cons]
      rcases List.mem_cons.mp h with h1 | h1
      · omega
      · have := ih (S ++ [k]) v h1
        simp only [List.length_append, List.length_singleton] at this
        omega

theorem getD_map {α β : Type} (f : α → β) (l : List α) (n : ℕ) (a : α) :
    (l.map f).getD n (f a) = f (l.getD n a) := by
  induction l generalizing n with
  | nil => simp
  | cons x xs ih =>
    cases n with
    | zero => simp
    | succ m => simp [ih m]

/-- Entry `i` of the reference index table is the position of the `i`-th
key among the distinct keys. -/
theorem tableGo_getD {α : Type} [DecidableEq α] (a0 : α) (ks : List α) :
    ∀ (S : List α) (i : ℕ), i < ks.length →
      (tableGo S ks).getD i 0 = pidx (S ++ dedupGo S ks) (ks.getD i a0) := by
  induction ks with
  | nil => intro S i h; cases h
  | cons k ks ih =>
    intro S i h
    simp only [tableGo, dedupGo]
    by_cases hm : k ∈ S
    · rw [if_pos hm, if_pos hm]
      cases i with
      | zero =>
        simp only [List.getD_cons_zero]
        rw [pidx_append_of_mem _ hm]
      | succ j =>
        simp only [List.getD_cons_succ]
        exact ih S j (by simpa using h)
    · rw [if_neg hm, if_neg hm]
      cases i with
      | zero =>
        simp only [List.getD_cons_zero]
        rw [pidx_append_of_not_mem _ hm]
        simp [pidx]
      | succ j =>
        simp only [List.getD_cons_succ]
        rw [ih (S ++ [k]) j (by simpa using h)]
        rw [List.append_assoc]
        rfl

/-- On a list of pairwise-distinct keys none of which was seen before,
deduplication is the identity and the reference table is consecutive. -/
theorem dedupGo_tableGo_of_nodup {α : Type} [DecidableEq α] {ks : List α} :
    ∀ {S : List α}, ks.Nodup → (∀ a ∈ ks, a ∉ S) →
      dedupGo S ks = ks ∧ tableGo S ks = List.range' S.length ks.length := by
  induction ks with
  | nil =>
    intro S _ _
    exact ⟨rfl, rfl⟩
  | cons k ks ih =>
    intro S hnd hdisj
    have hm : k ∉ S := hdisj k (List.mem_cons_self k ks)
    have hnd2 : ks.Nodup := (List.nodup_cons.mp hnd).2
    have hknotin : k ∉ ks := (List.nodup_cons.mp hnd).1
    have hdisj2 : ∀ a ∈ ks, a ∉ S ++ [k] := by
      intro a ha hc
      rcases List.mem_append.mp hc with h1 | h1
      · exact hdisj a (List.mem_cons_of_mem _ ha) h1
      · have : a = k := List.mem_singleton.mp h1
        exact hknotin (this ▸ ha)
    obtain ⟨h1, h2⟩ := ih hnd2 hdisj2
    constructor
    · simp only [dedupGo, if_neg hm, h1]
    · simp only [tableGo, if_neg hm, h2, List.length_cons]
      rw [List.range'_succ]
      simp [List.length_append]

/-- Round half to even moves a rational by at most one half. -/
theorem abs_rndHalfEven_sub (x : ℚ) : |(rndHalfEven x : ℚ) - x| ≤ 1 / 2 := by
  have h0 : (⌊x⌋ : ℚ) ≤ x := Int.floor_le x
  have h1 : x < (⌊x⌋ : ℚ) + 1 := Int.lt_floor_add_one x
  unfold rndHalfEven
  split_ifs with hlt hgt hev
  · rw [abs_sub_comm, abs_of_nonneg (by linarith)]
    linarith
  · push_cast
    rw [abs_of_nonneg (by linarith)]
    linarith
  · rw [abs_sub_comm, abs_of_nonneg (by linarith)]
    linarith
  · push_cast
    rw [abs_of_nonneg (by linarith)]
    linarith

/-- Rounding to `d` decimal places moves a rational by at most half of the
quantization step `10 ^ (-d)`. -/
theorem roundTo_close (d : ℕ) (x : ℚ) : |roundTo d x - x| ≤ 1 / (2 * 10 ^ d) := by
  have hp : (0 : ℚ) < 10 ^ d := by positivity
  have h := abs_rndHalfEven_sub (x * 10 ^ d)
  unfold roundTo
  have hrw : (rndHalfEven (x * 10 ^ d) : ℚ) / 10 ^ d - x
      = ((rndHalfEven (x * 10 ^ d) : ℚ) - x * 10 ^ d) / 10 ^ d := by
    field_simp
    ring
  rw [hrw, abs_div, abs_of_pos hp, div_le_div_iff₀ hp (by positivity)]
  calc |(rndHalfEven (x * 10 ^ d) : ℚ) - x * 10 ^ d| * (2 * 10 ^ d)
      ≤ (1 / 2) * (2 * 10 ^ d) := by
        apply mul_le_mul_of_nonneg_right h
        positivity
    _ = 1 * 10 ^ d := by ring

/-- Two rationals with the same rounding at `d` decimal places differ by at
most the quantization step. -/
theorem abs_le_of_roundTo_eq {d : ℕ} {x y : ℚ} (h : roundTo d x = roundTo d y) :
    |x - y| ≤ 1 / 10 ^ d := by
  have hx := roundTo_close d x
  have hy := roundTo_close d y
  have : |x - y| ≤ |roundTo d x - x| + |roundTo d y - y| := by
    have h2 : x - y = (roundTo d y - y) - (roundTo d x - x) := by rw [h]; ring
    rw [h2]
    calc |(roundTo d y - y) - (roundTo d x - x)|
        ≤ |roundTo d y - y| + |roundTo d x - x| := abs_sub _ _
      _ = |roundTo d x - x| + |roundTo d y - y| := by ring
  have hsum : |roundTo d x - x| + |roundTo d y - y| ≤ 1 / (2 * 10 ^ d) + 1 / (2 * 10 ^ d) := by
    linarith
  have heq : 1 / (2 * 10 ^ d) + 1 / (2 * 10 ^ d) = 1 / (10 ^ d : ℚ) := by
    field_simp
    ring
  linarith [this, hsum, heq ▸ hsum]

/-- Points further apart than the quantization step on some axis have
different quantized keys. -/
theorem quantize_ne_of_farApart {d : ℕ} {p q : Pt}
    (h : farApart (1 / 10 ^ d) p q) : quantize d p ≠ quantize d q := by
  intro hc
  have h1 : roundTo d p.1 = roundTo d q.1 := congrArg (fun r => r.1) hc
  have h2 : roundTo d p.2.1 = roundTo d q.2.1 := congrArg (fun r => r.2.1) hc
  have h3 : roundTo d p.2.2 = roundTo d q.2.2 := congrArg (fun r => r.2.2) hc
  rcases h with h | h | h
  · exact absurd (abs_le_of_roundTo_eq h1) (not_le.mpr h)
  · exact absurd (abs_le_of_roundTo_eq h2) (not_le.mpr h)
  · exact absurd (abs_le_of_roundTo_eq h3) (not_le.mpr h)

/-- The canonical index recorded for raw vertex `i` is the position of its
quantized key among the distinct keys in first-occurrence order. -/
theorem weld_table_getD (d : ℕ) (vs : List Pt) (i : ℕ) (h : i < vs.length) :
    (weld d vs).vertTable.getD i 0 =
      pidx (firstDedup (vs.map (quantize d))) (quantize d (vs.getD i pt0)) := by
  rw [weld_eq]
  have h2 : i < (vs.map (quantize d)).length := by simpa using h
  have hk := tableGo_getD (quantize d pt0) (vs.map (quantize d)) [] i h2
  simp only [List.nil_append] at hk
  rw [hk, firstDedup]
  congr 1
  exact getD_map (quantize d) vs i pt0

theorem mem_firstDedup_of_mem {α : Type} [DecidableEq α] {l : List α} {a : α}
    (h : a ∈ l) : a ∈ firstDedup l := by
  rcases mem_dedupGo_of_mem (S := []) h with h1 | h1
  · cases h1
  · exact h1

theorem quantize_getD_mem (d : ℕ) (vs : List Pt) (i : ℕ) (h : i < vs.length) :
    quantize d (vs.getD i pt0) ∈ vs.map (quantize d) := by
  have : vs.getD i pt0 ∈ vs := by
    rw [List.getD_eq_getElem vs pt0 h]
    exact List.getElem_mem h
  exact List.mem_map_of_mem (quantize d) this

/-- Two raw vertices receive the same canonical index iff their quantized
keys coincide (the `VertexIndexMap` invariant). -/
theorem weld_table_eq_iff (d : ℕ) (vs : List Pt) (i j : ℕ)
    (hi : i < vs.length) (hj : j < vs.length) :
    (weld d vs).vertTable.getD i 0 = (weld d vs).vertTable.getD j 0 ↔
      quantize d (vs.getD i pt0) = quantize d (vs.getD j pt0) := by
  rw [weld_table_getD d vs i hi, weld_table_getD d vs j hj]
  constructor
  · intro h
    have hmi : quantize d (vs.getD i pt0) ∈ firstDedup (vs.map (quantize d)) :=
      mem_firstDedup_of_mem (quantize_getD_mem d vs i hi)
    have hmj : quantize d (vs.getD j pt0) ∈ firstDedup (vs.map (quantize d)) :=
      mem_firstDedup_of_mem (quantize_getD_mem d vs j hj)
    exact pidx_inj hmi hmj h
  · intro h
    rw [h]

/-- All canonical indices in the table are valid indices into the output
vertex list. -/
theorem weld_table_lt (d : ℕ) (vs : List Pt) :
    ∀ v ∈ (weld d vs).vertTable, v < (weldVertices d vs).length := by
  intro v hv
  rw [weld_eq] at hv
  rw [weldVertices_eq]
  have := tableGo_mem_lt (vs.map (quantize d)) [] v hv
  simpa [firstDedup] using this

theorem mapTri_eq_some {table : List ℕ} {t : Tri}
    (h1 : t.1 < table.length) (h2 : t.2.1 < table.length) (h3 : t.2.2 < table.length) :
    mapTri table t = some (table.getD t.1 0, table.getD t.2.1 0, table.getD t.2.2 0) := by
  unfold mapTri
  rw [List.getElem?_eq_getElem h1, List.getElem?_eq_getElem h2, List.getElem?_eq_getElem h3]
  rw [List.getD_eq_getElem table 0 h1, List.getD_eq_getElem table 0 h2,
    List.getD_eq_getElem table 0 h3]

/-- When every raw index is in range, the triangle loop succeeds and equals
the in-order `filterMap` of the per-triangle outcome. -/
theorem filterTris_eq (table : List ℕ) (tris : List Tri)
    (h : ∀ t ∈ tris, t.1 < table.length ∧ t.2.1 < table.length ∧ t.2.2 < table.length) :
    filterTris table tris = some (tris.filterMap (triOut table)) := by
  induction tris with
  | nil => simp [filterTris]
  | cons t ts ih =>
    obtain ⟨h1, h2, h3⟩ := h t (List.mem_cons_self t ts)
    have hrest := ih (fun u hu => h u (List.mem_cons_of_mem _ hu))
    simp only [filterTris]
    rw [mapTri_eq_some h1 h2 h3, hrest]
    simp only [Option.bind_eq_bind, Option.some_bind]
    rw [List.filterMap_cons]
    simp only [triOut]
    rw [mapTri_eq_some h1 h2 h3]
    simp only [Option.some_bind]
    by_cases hd : distinct3 (table.getD t.1 0, table.getD t.2.1 0, table.getD t.2.2 0)
    · rw [if_pos hd, if_pos hd]
      rfl
    · rw [if_neg hd, if_neg hd]
      rfl

theorem triOut_mem_table {table : List ℕ} {t m : Tri} (h : triOut table t = some m) :
    distinct3 m ∧ m.1 ∈ table ∧ m.2.1 ∈ table ∧ m.2.2 ∈ table := by
  unfold triOut mapTri at h
  cases ha : table[t.1]? with
  | none => rw [ha] at h; simp at h
  | some a =>
    cases hb : table[t.2.1]? with
    | none => rw [ha, hb] at h; simp at h
    | some b =>
      cases hc : table[t.2.2]? with
      | none => rw [ha, hb, hc] at h; simp at h
      | some c =>
        rw [ha, hb, hc] at h
        simp only [Option.some_bind] at h
        by_cases hd : distinct3 (a, b, c)
        · rw [if_pos hd] at h
          have hm : m = (a, b, c) := (Option.some_inj.mp h).symm
          subst hm
          exact ⟨hd, List.getElem?_mem ha, List.getElem?_mem hb,
            List.getElem?_mem hc⟩
        · rw [if_neg hd] at h
          simp at h

/-- Evaluation rule for rounding when the scaled value lies strictly below
the half point. -/
theorem roundTo_eval_lt {d : ℕ} {x : ℚ} {f : ℤ} (h1 : ⌊x * 10 ^ d⌋ = f)
    (h2 : x * 10 ^ d - (f : ℚ) < 1/2) : roundTo d x = (f : ℚ) / 10 ^ d := by
  unfold roundTo rndHalfEven
  rw [h1, if_pos h2]

/-- Evaluation rule for rounding when the scaled value lies strictly above
the half point. -/
theorem roundTo_eval_gt {d : ℕ} {x : ℚ} {f : ℤ} (h1 : ⌊x * 10 ^ d⌋ = f)
    (h2 : 1/2 < x * 10 ^ d - (f : ℚ)) : roundTo d x = ((f : ℚ) + 1) / 10 ^ d := by
  unfold roundTo rndHalfEven
  rw [h1, if_neg (by linarith), if_pos h2]
  push_cast
  ring

theorem floor_eval {x : ℚ} {f : ℤ} (h1 : (f : ℚ) ≤ x) (h2 : x < f + 1) : ⌊x⌋ = f :=
  Int.floor_eq_iff.mpr ⟨h1, h2⟩

theorem roundTo4_zero : roundTo 4 (0 : ℚ) = 0 := by
  rw [roundTo_eval_lt (f := 0) (floor_eval (by norm_num) (by norm_num)) (by norm_num)]
  norm_num

theorem roundTo4_one : roundTo 4 (1 : ℚ) = 1 := by
  rw [roundTo_eval_lt (f := 10000) (floor_eval (by norm_num) (by norm_num)) (by norm_num)]
  norm_num

theorem roundTo4_third : roundTo 4 ((1 : ℚ)/3) = 3333/10000 := by
  rw [roundTo_eval_lt (f := 3333) (floor_eval (by norm_num) (by norm_num)) (by norm_num)]
  norm_num

theorem roundTo4_4em5 : roundTo 4 ((4 : ℚ)/100000) = 0 := by
  rw [roundTo_eval_lt (f := 0) (floor_eval (by norm_num) (by norm_num)) (by norm_num)]
  norm_num

theorem roundTo4_6em5 : roundTo 4 ((6 : ℚ)/100000) = 1/10000 := by
  rw [roundTo_eval_gt (f := 0) (floor_eval (by norm_num) (by norm_num)) (by norm_num)]
  norm_num

theorem quantize4_000 : quantize 4 ((0 : ℚ), (0 : ℚ), (0 : ℚ)) = ((0 : ℚ), (0 : ℚ), (0 : ℚ)) := by
  simp [quantize, roundTo4_zero]

theorem quantize4_100 : quantize 4 ((1 : ℚ), (0 : ℚ), (0 : ℚ)) = ((1 : ℚ), (0 : ℚ), (0 : ℚ)) := by
  simp [quantize, roundTo4_one, roundTo4_zero]

theorem quantize4_010 : quantize 4 ((0 : ℚ), (1 : ℚ), (0 : ℚ)) = ((0 : ℚ), (1 : ℚ), (0 : ℚ)) := by
  simp [quantize, roundTo4_one, roundTo4_zero]

theorem weld_singleton (d : ℕ) (p : Pt) :
    weld d [p] = ⟨[(quantize d p, 0)], 1, [0]⟩ := by
  simp [weld, weldGo, weldStep, alookup]

theorem weld_pair_ne {d : ℕ} {p q : Pt} (h : quantize d p ≠ quantize d q) :
    weld d [p, q] = ⟨[(quantize d p, 0), (quantize d q, 1)], 2, [0, 1]⟩ := by
  simp [weld, weldGo, weldStep, alookup, h]

theorem weld_triple_ne {d : ℕ} {p q r : Pt} (h1 : quantize d p ≠ quantize d q)
    (h2 : quantize d p ≠ quantize d r) (h3 : quantize d q ≠ quantize d r) :
    weld d [p, q, r] =
      ⟨[(quantize d p, 0), (quantize d q, 1), (quantize d r, 2)], 3, [0, 1, 2]⟩ := by
  simp [weld, weldGo, weldStep, alookup, h1, h2, h3]

/-- C1, counterexample: the claim says the vertex stored at a canonical
index is the original (not rounded) coordinate triple of the first raw
vertex with that key; but the welder stores the rounded key: welding the
single raw vertex (1/3, 0, 0) stores (3333/10000, 0, 0). -/
theorem C1_counterexample :
    weldVertices digits [((1 : ℚ)/3, (0 : ℚ), (0 : ℚ))] ≠
      [((1 : ℚ)/3, (0 : ℚ), (0 : ℚ))] := by
  have hd : digits = 4 := rfl
  have hw : weldVertices 4 [((1 : ℚ)/3, (0 : ℚ), (0 : ℚ))] =
      [quantize 4 ((1 : ℚ)/3, (0 : ℚ), (0 : ℚ))] := by
    rw [weldVertices, weld_singleton]
    rfl
  have hq : quantize 4 ((1 : ℚ)/3, (0 : ℚ), (0 : ℚ)) =
      ((3333 : ℚ)/10000, (0 : ℚ), (0 : ℚ)) := by
    show (roundTo 4 ((1 : ℚ)/3), roundTo 4 (0 : ℚ), roundTo 4 (0 : ℚ)) = _
    rw [roundTo4_third, roundTo4_zero]
  rw [hd, hw, hq]
  intro hc
  simp only [List.cons.injEq, Prod.mk.injEq] at hc
  exact absurd hc.1.1 (by norm_num)

/-- C1, amended: the welder's output vertex list is the quantized keys of
the raw vertices, first occurrences only in first-occurrence order (so the
vertex stored at each canonical index is the rounded key of the first raw
vertex assigned that index), and the table records an entry for every raw
vertex, mapping it to the position of its key in the output list. -/
theorem C1_weld_stores_quantized_keys (d : ℕ) (vs : List Pt) :
    weldVertices d vs = firstDedup (vs.map (quantize d)) ∧
    (weld d vs).vertTable.length = vs.length ∧
    ∀ i, i < vs.length →
      (weld d vs).vertTable.getD i 0 =
        pidx (weldVertices d vs) (quantize d (vs.getD i pt0)) := by
  refine ⟨weldVertices_eq d vs, weld_table_length d vs, ?_⟩
  intro i hi
  rw [weld_table_getD d vs i hi, weldVertices_eq]

/-- C1, witness: the amended statement applied to the one-vertex list. -/
theorem C1_witness :
    0 < 1 ∧
    (weld 4 [pt0]).vertTable.getD 0 0 = pidx (weldVertices 4 [pt0]) (quantize 4 ([pt0].getD 0 pt0)) :=
  ⟨Nat.zero_lt_one, (C1_weld_stores_quantized_keys 4 [pt0]).2.2 0 Nat.zero_lt_one⟩

/-- C3, counterexample: two points that differ by less than half of the
quantization step on every axis but straddle a rounding boundary, so they
are welded to different canonical indices. -/
theorem C3_counterexample :
    (|(4 : ℚ)/100000 - (6 : ℚ)/100000| < 1 / 10 ^ digits / 2 ∧
      |(0 : ℚ) - (0 : ℚ)| < 1 / 10 ^ digits / 2 ∧
      |(0 : ℚ) - (0 : ℚ)| < 1 / 10 ^ digits / 2) ∧
    (weld digits [((4 : ℚ)/100000, (0 : ℚ), (0 : ℚ)),
        ((6 : ℚ)/100000, (0 : ℚ), (0 : ℚ))]).vertTable.getD 0 0 ≠
      (weld digits [((4 : ℚ)/100000, (0 : ℚ), (0 : ℚ)),
        ((6 : ℚ)/100000, (0 : ℚ), (0 : ℚ))]).vertTable.getD 1 0 := by
  have hd : digits = 4 := rfl
  constructor
  · refine ⟨?_, ?_, ?_⟩
    · rw [show (4 : ℚ)/100000 - (6 : ℚ)/100000 = -(2/100000) by norm_num, abs_neg,
        abs_of_nonneg (by norm_num), hd]
      norm_num
    · rw [hd]
      norm_num
    · rw [hd]
      norm_num
  · have hq : quantize 4 ((4 : ℚ)/100000, (0 : ℚ), (0 : ℚ)) ≠
        quantize 4 ((6 : ℚ)/100000, (0 : ℚ), (0 : ℚ)) := by
      show (roundTo 4 ((4 : ℚ)/100000), roundTo 4 (0 : ℚ), roundTo 4 (0 : ℚ)) ≠
        (roundTo 4 ((6 : ℚ)/100000), roundTo 4 (0 : ℚ), roundTo 4 (0 : ℚ))
      rw [roundTo4_4em5, roundTo4_6em5]
      intro hc
      have hx : (0 : ℚ) = 1/10000 := congrArg Prod.fst hc
      exact absurd hx (by norm_num)
    rw [hd, weld_pair_ne hq]
    decide

/-- C3, amended: two raw vertices weld to the same canonical index iff
their quantized keys (coordinates rounded at `digits` places) coincide; in
particular two points farther apart than the quantization step 10^-d on
some axis never weld together.  At the spec-modelled tolerance the step
10^-digits equals TOLERANCE. -/
theorem C3_tolerance_amended (d : ℕ) (vs : List Pt) (i j : ℕ)
    (hi : i < vs.length) (hj : j < vs.length) :
    ((weld d vs).vertTable.getD i 0 = (weld d vs).vertTable.getD j 0 ↔
      quantize d (vs.getD i pt0) = quantize d (vs.getD j pt0)) ∧
    (farApart (1 / 10 ^ d) (vs.getD i pt0) (vs.getD j pt0) →
      (weld d vs).vertTable.getD i 0 ≠ (weld d vs).vertTable.getD j 0) ∧
    TOLERANCE = 1 / 10 ^ digits := by
  refine ⟨weld_table_eq_iff d vs i j hi hj, ?_, rfl⟩
  intro hf hc
  exact quantize_ne_of_farApart hf ((weld_table_eq_iff d vs i j hi hj).mp hc)

/-- C3, witness: the amended statement applied to a concrete two-vertex
list. -/
theorem C3_witness :
    0 < 2 ∧ 1 < 2 ∧
    (((weld 4 [pt0, pt0]).vertTable.getD 0 0 = (weld 4 [pt0, pt0]).vertTable.getD 1 0 ↔
      quantize 4 ([pt0, pt0].getD 0 pt0) = quantize 4 ([pt0, pt0].getD 1 pt0)) ∧
    (farApart (1 / 10 ^ 4) ([pt0, pt0].getD 0 pt0) ([pt0, pt0].getD 1 pt0) →
      (weld 4 [pt0, pt0]).vertTable.getD 0 0 ≠ (weld 4 [pt0, pt0]).vertTable.getD 1 0) ∧
    TOLERANCE = 1 / 10 ^ digits) :=
  ⟨by decide, by decide,
    C3_tolerance_amended 4 [pt0, pt0] 0 1 (by decide) (by decide)⟩

/-- C5, confirmed: under valid raw triangle indices `_create_3mf_mesh`
succeeds; the output triangle list is the in-order `filterMap` of the
per-triangle outcome, so a triangle survives iff its three mapped
canonical indices are pairwise distinct and survivors keep input order;
every output index is a valid index into the output vertex list, the three
indices of every output triangle are pairwise distinct, and the survivor
count is at most the input count. -/
theorem C5_mesh_invariants (d : ℕ) (vs : List Pt) (tris : List Tri)
    (h : ∀ t ∈ tris, t.1 < vs.length ∧ t.2.1 < vs.length ∧ t.2.2 < vs.length) :
    ∃ out : List Pt × List Tri,
      createMesh d vs tris = some out ∧
      out.2 = tris.filterMap (triOut (weld d vs).vertTable) ∧
      (∀ m ∈ out.2, distinct3 m ∧
        m.1 < out.1.length ∧ m.2.1 < out.1.length ∧ m.2.2 < out.1.length) ∧
      out.2.length ≤ tris.length := by
  have hlen := weld_table_length d vs
  have hh : ∀ t ∈ tris, t.1 < (weld d vs).vertTable.length ∧
      t.2.1 < (weld d vs).vertTable.length ∧ t.2.2 < (weld d vs).vertTable.length := by
    intro t ht
    rw [hlen]
    exact h t ht
  refine ⟨(weldVertices d vs, tris.filterMap (triOut (weld d vs).vertTable)),
    ?_, rfl, ?_, ?_⟩
  · unfold createMesh
    rw [filterTris_eq _ _ hh]
    rfl
  · intro m hm
    obtain ⟨t, _, hto⟩ := List.mem_filterMap.mp hm
    obtain ⟨hd3, h1, h2, h3⟩ := triOut_mem_table hto
    exact ⟨hd3, weld_table_lt d vs _ h1, weld_table_lt d vs _ h2,
      weld_table_lt d vs _ h3⟩
  · exact List.length_filterMap_le _ _

/-- C5, witness: the theorem applied to one concrete triangle over three
distinct vertices. -/
theorem C5_witness :
    (∀ t ∈ c4tris, t.1 < c4verts.length ∧ t.2.1 < c4verts.length ∧
      t.2.2 < c4verts.length) ∧
    ∃ out : List Pt × List Tri,
      createMesh 4 c4verts c4tris = some out ∧
      out.2 = c4tris.filterMap (triOut (weld 4 c4verts).vertTable) ∧
      (∀ m ∈ out.2, distinct3 m ∧
        m.1 < out.1.length ∧ m.2.1 < out.1.length ∧ m.2.2 < out.1.length) ∧
      out.2.length ≤ c4tris.length :=
  ⟨by decide, C5_mesh_invariants 4 c4verts c4tris (by decide)⟩

/-- C6, confirmed: on a vertex list whose quantized keys are pairwise
distinct (an already-welded list), the welder returns the same vertex
count and the identity raw-index-to-canonical-index map. -/
theorem C6_welding_idempotent (d : ℕ) (vs : List Pt)
    (h : (vs.map (quantize d)).Nodup) :
    (weldVertices d vs).length = vs.length ∧
    (weld d vs).vertTable = List.range vs.length := by
  have hsub := @dedupGo_tableGo_of_nodup Pt _ (vs.map (quantize d)) [] h
    (by intro a _; exact List.not_mem_nil a)
  obtain ⟨h1, h2⟩ := hsub
  constructor
  · rw [weldVertices_eq, firstDedup, h1]
    simp
  · rw [weld_eq]
    show tableGo [] (vs.map (quantize d)) = List.range vs.length
    rw [h2]
    simp [List.range_eq_range']

/-- C6, witness: the theorem applied to a two-point list already free of
duplicates under quantization. -/
theorem C6_witness :
    (([((0 : ℚ), (0 : ℚ), (0 : ℚ)), ((1 : ℚ), (0 : ℚ), (0 : ℚ))] : List Pt).map
      (quantize 4)).Nodup ∧
    (weldVertices 4 [((0 : ℚ), (0 : ℚ), (0 : ℚ)), ((1 : ℚ), (0 : ℚ), (0 : ℚ))]).length = 2 ∧
    (weld 4 [((0 : ℚ), (0 : ℚ), (0 : ℚ)), ((1 : ℚ), (0 : ℚ), (0 : ℚ))]).vertTable =
      List.range 2 := by
  have hnd : (([((0 : ℚ), (0 : ℚ), (0 : ℚ)), ((1 : ℚ), (0 : ℚ), (0 : ℚ))] : List Pt).map
      (quantize 4)).Nodup := by
    rw [List.map_cons, List.map_cons, List.map_nil, quantize4_000, quantize4_100]
    decide
  obtain ⟨ha, hb⟩ := C6_welding_idempotent 4
    [((0 : ℚ), (0 : ℚ), (0 : ℚ)), ((1 : ℚ), (0 : ℚ), (0 : ℚ))] hnd
  exact ⟨hnd, ha, hb⟩

/-- Non-skip step of the add_shape loop: a shape passing the raw-count
check whose weld succeeds and whose mesh is valid and manifold appends one
mesh entry and one build item. -/
theorem addShapeGo_cons_ok (d : ℕ) (v m : (List Pt × List Tri) → Bool) (st : MState)
    (rm : RawShape) (rest : List RawShape) (geo : List Pt × List Tri)
    (h1 : ¬(rm.vertices.length < 3 ∨ rm.triangles = []))
    (h2 : createMesh d rm.vertices rm.triangles = some geo)
    (h3 : v geo = true) (h4 : m geo = true) :
    addShapeGo d v m st (rm :: rest) =
      addShapeGo d v m
        { st with
          modelMeshObjects := st.modelMeshObjects + 1
          meshes := st.meshes ++ [geo]
          buildItems := st.buildItems + 1 } rest := by
  simp only [addShapeGo]
  rw [if_neg h1, h2]
  simp [h3, h4]

/-- C2, counterexample: a shape with three raw vertices and one triangle
that repeats a vertex index has no triangle surviving the degenerate
filter, yet add_shape does not skip it: no warning is emitted and a mesh
entry (with an empty triangle list) is appended, because the skip check of
mesher.py line 411 tests the raw vertex count and the raw triangle list,
not the welded/filtered ones. -/
theorem C2_counterexample :
    ∃ st : MState,
      addShapeGo 4 (fun _ => true) (fun _ => true) st0 [c2shape] = .ok st ∧
      st.meshes.length = 1 ∧ st.warnings = [] ∧
      (st.meshes.getD 0 ([], [])).2 = [] := by
  have hq1 : quantize 4 ((0 : ℚ), (0 : ℚ), (0 : ℚ)) ≠ quantize 4 ((1 : ℚ), (0 : ℚ), (0 : ℚ)) := by
    rw [quantize4_000, quantize4_100]
    decide
  have hq2 : quantize 4 ((0 : ℚ), (0 : ℚ), (0 : ℚ)) ≠ quantize 4 ((0 : ℚ), (1 : ℚ), (0 : ℚ)) := by
    rw [quantize4_000, quantize4_010]
    decide
  have hq3 : quantize 4 ((1 : ℚ), (0 : ℚ), (0 : ℚ)) ≠ quantize 4 ((0 : ℚ), (1 : ℚ), (0 : ℚ)) := by
    rw [quantize4_100, quantize4_010]
    decide
  have hw : weld 4 c2shape.vertices =
      ⟨[(quantize 4 ((0 : ℚ), (0 : ℚ), (0 : ℚ)), 0),
        (quantize 4 ((1 : ℚ), (0 : ℚ), (0 : ℚ)), 1),
        (quantize 4 ((0 : ℚ), (1 : ℚ), (0 : ℚ)), 2)], 3, [0, 1, 2]⟩ :=
    weld_triple_ne hq1 hq2 hq3
  have hft : filterTris ([0, 1, 2] : List ℕ) [((0 : ℕ), (0 : ℕ), (1 : ℕ))] = some [] := by
    decide
  have hcm : createMesh 4 c2shape.vertices c2shape.triangles =
      some (weldVertices 4 c2shape.vertices, []) := by
    unfold createMesh
    rw [show (weld 4 c2shape.vertices).vertTable = [0, 1, 2] from
      congrArg WeldSt.vertTable hw]
    rw [show c2shape.triangles = [((0 : ℕ), (0 : ℕ), (1 : ℕ))] from rfl, hft]
    rfl
  have hrun := addShapeGo_cons_ok 4 (fun _ => true) (fun _ => true) st0 c2shape []
    (weldVertices 4 c2shape.vertices, []) (by decide) hcm rfl rfl
  exact ⟨{ st0 with
      modelMeshObjects := st0.modelMeshObjects + 1
      meshes := st0.meshes ++ [(weldVertices 4 c2shape.vertices, [])]
      buildItems := st0.buildItems + 1 }, hrun.trans rfl, rfl, rfl, rfl⟩

/-- C2, amended: the skip check of add_shape tests the RAW tessellation
output, not the welded mesh: a leaf is skipped iff its raw vertex count is
below 3 or its raw triangle list is empty; on a skip, a warning naming the
shape is appended, the accumulated mesh list and build items are
unchanged, no error is raised, and processing continues with the
remaining leaves. -/
theorem C2_skip_on_raw_counts (d : ℕ) (v m : (List Pt × List Tri) → Bool)
    (st : MState) (rm : RawShape) (rest : List RawShape)
    (h : rm.vertices.length < 3 ∨ rm.triangles = []) :
    addShapeGo d v m st (rm :: rest) =
      addShapeGo d v m
        { st with
          modelMeshObjects := st.modelMeshObjects + 1
          warnings := st.warnings ++ [Warn.degenerate rm.shapeId] } rest := by
  simp only [addShapeGo]
  rw [if_pos h]

/-- C2, witness: skipping a shape with an empty tessellation leaves the
mesh list unchanged and the loop terminates successfully. -/
theorem C2_witness :
    (((⟨3, [], []⟩ : RawShape).vertices.length < 3 ∨
      (⟨3, [], []⟩ : RawShape).triangles = []) ∧
    addShapeGo 4 (fun _ => true) (fun _ => true) st0 [⟨3, [], []⟩] =
      addShapeGo 4 (fun _ => true) (fun _ => true)
        { st0 with
          modelMeshObjects := st0.modelMeshObjects + 1
          warnings := st0.warnings ++ [Warn.degenerate 3] } []) ∧
    addShapeGo 4 (fun _ => true) (fun _ => true) st0 [⟨3, [], []⟩] =
      .ok ⟨BUnit.MM, ModelUnit3mf.MilliMeter, 1, [], 0, [Warn.degenerate 3]⟩ := by
  have h := C2_skip_on_raw_counts 4 (fun _ => true) (fun _ => true) st0 ⟨3, [], []⟩ []
    (Or.inl (by decide))
  exact ⟨⟨Or.inl (by decide), h⟩, h.trans rfl⟩

theorem buildFace_eq_some {verts : List Pt} {t : Tri}
    (h1 : t.1 < verts.length) (h2 : t.2.1 < verts.length) (h3 : t.2.2 < verts.length) :
    buildFace verts t =
      some (verts.getD t.1 pt0, verts.getD t.2.1 pt0, verts.getD t.2.2 pt0) := by
  unfold buildFace
  rw [List.getElem?_eq_getElem h1, List.getElem?_eq_getElem h2, List.getElem?_eq_getElem h3]
  rw [List.getD_eq_getElem verts pt0 h1, List.getD_eq_getElem verts pt0 h2,
    List.getD_eq_getElem verts pt0 h3]

/-- When every triangle index is in range, the face loop of `_get_shape`
succeeds and keeps exactly the faces of nonzero area, in input order. -/
theorem getShapeFaces_eq (verts : List Pt) (tris : List Tri)
    (h : ∀ t ∈ tris, t.1 < verts.length ∧ t.2.1 < verts.length ∧ t.2.2 < verts.length) :
    getShapeFaces verts tris = some (tris.filterMap
      (fun t => (buildFace verts t).bind
        (fun f => if faceCross2 f = 0 then none else some f))) := by
  induction tris with
  | nil => simp [getShapeFaces]
  | cons t ts ih =>
    obtain ⟨h1, h2, h3⟩ := h t (List.mem_cons_self t ts)
    have hrest := ih (fun u hu => h u (List.mem_cons_of_mem _ hu))
    simp only [getShapeFaces]
    rw [buildFace_eq_some h1 h2 h3, hrest]
    simp only [Option.bind_eq_bind, Option.some_bind]
    rw [List.filterMap_cons, buildFace_eq_some h1 h2 h3]
    simp only [Option.some_bind]
    by_cases hz : faceCross2 (verts.getD t.1 pt0, verts.getD t.2.1 pt0, verts.getD t.2.2 pt0) = 0
    · rw [if_pos hz, if_pos hz]
      rfl
    · rw [if_neg hz, if_neg hz]
      rfl

/-- C4, counterexample: the claim's per-shell promotion rule does not
match the code.  With a kernel where the sewn shape (id 0) decomposes into
shells 1 and 2, shell 1 manifold and the whole sewn shell not, the code
returns the whole sewn shape as one shell, while the claim's reading
promotes shell 1 to a solid and keeps shell 2 as a shell. -/
theorem C4_counterexample :
    (getShapeCode k0 c4verts c4tris).map (fun r => [r]) ≠
      getShapeSpecList k0 c4verts c4tris := by
  have hb : buildFace c4verts ((0 : ℕ), (1 : ℕ), (2 : ℕ)) =
      some (((0 : ℚ), (0 : ℚ), (0 : ℚ)), ((1 : ℚ), (0 : ℚ), (0 : ℚ)),
        ((0 : ℚ), (1 : ℚ), (0 : ℚ))) := rfl
  have hz : faceCross2 (((0 : ℚ), (0 : ℚ), (0 : ℚ)), ((1 : ℚ), (0 : ℚ), (0 : ℚ)),
      ((0 : ℚ), (1 : ℚ), (0 : ℚ))) = 1 := by
    unfold faceCross2
    norm_num
  have hface : getShapeFaces c4verts c4tris =
      some [(((0 : ℚ), (0 : ℚ), (0 : ℚ)), ((1 : ℚ), (0 : ℚ), (0 : ℚ)),
        ((0 : ℚ), (1 : ℚ), (0 : ℚ)))] := by
    show getShapeFaces c4verts [((0 : ℕ), (1 : ℕ), (2 : ℕ))] = _
    simp only [getShapeFaces, hb, hz, Option.bind_eq_bind, Option.some_bind]
    rw [if_neg (by norm_num)]
    rfl
  unfold getShapeCode getShapeSpecList
  rw [hface]
  simp only [Option.bind_eq_bind, Option.some_bind, Option.map_some]
  decide

/-- C4, amended: `_get_shape` discards exactly the zero-area triangles (in
input order), sews the survivors, and applies ONE manifold test to the
shell wrapping the whole sewn shape: when it passes, a single solid is
built from all the enumerated shells (the result is a solid iff that one
test passes); otherwise the whole sewn shape is returned as one shell —
shells are never promoted individually. -/
theorem C4_reconstruction_amended (K : SewKernel) (verts : List Pt) (tris : List Tri)
    (h : ∀ t ∈ tris, t.1 < verts.length ∧ t.2.1 < verts.length ∧ t.2.2 < verts.length) :
    ∃ faces : List Face,
      getShapeFaces verts tris = some faces ∧
      faces = tris.filterMap (fun t => (buildFace verts t).bind
        (fun f => if faceCross2 f = 0 then none else some f)) ∧
      getShapeCode K verts tris =
        some (if K.manifold (K.sew faces)
          then Recon.solidOf
            (if K.isCompound (K.sew faces) then K.shells (K.sew faces) else [K.sew faces])
          else Recon.shellOf (K.sew faces)) ∧
      ((∃ ids, getShapeCode K verts tris = some (Recon.solidOf ids)) ↔
        K.manifold (K.sew faces) = true) := by
  have hfe := getShapeFaces_eq verts tris h
  refine ⟨_, hfe, rfl, ?_, ?_⟩
  · unfold getShapeCode
    rw [hfe]
    rfl
  · have hcode : getShapeCode K verts tris =
        some (if K.manifold (K.sew (tris.filterMap (fun t => (buildFace verts t).bind
            (fun f => if faceCross2 f = 0 then none else some f))))
          then Recon.solidOf
            (if K.isCompound (K.sew (tris.filterMap (fun t => (buildFace verts t).bind
                (fun f => if faceCross2 f = 0 then none else some f))))
              then K.shells (K.sew (tris.filterMap (fun t => (buildFace verts t).bind
                (fun f => if faceCross2 f = 0 then none else some f))))
              else [K.sew (tris.filterMap (fun t => (buildFace verts t).bind
                (fun f => if faceCross2 f = 0 then none else some f)))])
          else Recon.shellOf (K.sew (tris.filterMap (fun t => (buildFace verts t).bind
            (fun f => if faceCross2 f = 0 then none else some f))))) := by
      unfold getShapeCode
      rw [hfe]
      rfl
    cases hM : K.manifold (K.sew (tris.filterMap (fun t => (buildFace verts t).bind
        (fun f => if faceCross2 f = 0 then none else some f)))) with
    | false =>
      constructor
      · rintro ⟨ids, hids⟩
        rw [hcode, hM] at hids
        simp at hids
      · intro hc
        exact Bool.noConfusion hc
    | true =>
      constructor
      · intro _
        rfl
      · intro _
        exact ⟨(if K.isCompound (K.sew (tris.filterMap (fun t => (buildFace verts t).bind
            (fun f => if faceCross2 f = 0 then none else some f))))
          then K.shells (K.sew (tris.filterMap (fun t => (buildFace verts t).bind
            (fun f => if faceCross2 f = 0 then none else some f))))
          else [K.sew (tris.filterMap (fun t => (buildFace verts t).bind
            (fun f => if faceCross2 f = 0 then none else some f)))]),
          by rw [hcode, hM]; simp⟩

/-- C4, witness: the amended statement applied to a concrete mesh and the
trivial kernel. -/
theorem C4_witness :
    (∀ t ∈ c4tris, t.1 < c4verts.length ∧ t.2.1 < c4verts.length ∧
      t.2.2 < c4verts.length) ∧
    ∃ faces : List Face,
      getShapeFaces c4verts c4tris = some faces ∧
      faces = c4tris.filterMap (fun t => (buildFace c4verts t).bind
        (fun f => if faceCross2 f = 0 then none else some f)) ∧
      getShapeCode k1 c4verts c4tris =
        some (if k1.manifold (k1.sew faces)
          then Recon.solidOf
            (if k1.isCompound (k1.sew faces) then k1.shells (k1.sew faces) else [k1.sew faces])
          else Recon.shellOf (k1.sew faces)) ∧
      ((∃ ids, getShapeCode k1 c4verts c4tris = some (Recon.solidOf ids)) ↔
        k1.manifold (k1.sew faces) = true) :=
  ⟨by decide, C4_reconstruction_amended k1 c4verts c4tris (by decide)⟩

/-- C7, confirmed: the unit and mesh-role tables are mutually inverse
bijections, and writing a container with any unit and reading it back
reports the same unit. -/
theorem C7_unit_meshtype_bijections :
    (∀ u : BUnit,
      (alookup map_b3d_to_3mf_unit u).bind (alookup map_3mf_to_b3d_unit) = some u) ∧
    (∀ w : ModelUnit3mf,
      (alookup map_3mf_to_b3d_unit w).bind (alookup map_b3d_to_3mf_unit) = some w) ∧
    (∀ t : BMeshType,
      (alookup map_b3d_mesh_type_3mf t).bind (alookup map_3mf_to_b3d_mesh_type) = some t) ∧
    (∀ o : ObjectType3mf,
      (alookup map_3mf_to_b3d_mesh_type o).bind (alookup map_b3d_mesh_type_3mf) = some o) ∧
    (∀ u : BUnit, writeReadUnit k1 u = some u) := by
  refine ⟨?_, ?_, ?_, ?_, ?_⟩
  · intro x
    cases x <;> rfl
  · intro x
    cases x <;> rfl
  · intro x
    cases x <;> rfl
  · intro x
    cases x <;> rfl
  · intro x
    cases x <;> rfl

/-- C8, confirmed: read and write raise ValueError exactly when the
extension is neither .3mf nor .stl, and they do so independently of the
file store (before any file access); with an accepted extension a missing
file on read surfaces as the not-found error, and write succeeds,
persisting the container. -/
theorem C8_extension_errors (p : String) :
    (¬(splitextExt p = ".3mf" ∨ splitextExt p = ".stl") →
      (∀ (K : SewKernel) (fs : String → Option File3mf) (st : MState),
        readModel K fs st p = .error (.valueError (splitextExt p))) ∧
      (∀ st : MState, writeModel st p = .error (.valueError (splitextExt p)))) ∧
    ((splitextExt p = ".3mf" ∨ splitextExt p = ".stl") →
      (∀ (K : SewKernel) (fs : String → Option File3mf) (st : MState) (e : String),
        readModel K fs st p ≠ .error (.valueError e) ∧
        writeModel st p ≠ .error (.valueError e)) ∧
      (∀ (K : SewKernel) (fs : String → Option File3mf) (st : MState),
        fs p = none → readModel K fs st p = .error .fileNotFound) ∧
      (∀ st : MState, writeModel st p = .ok (p, ⟨st.modelUnit, st.meshes⟩))) := by
  constructor
  · intro hbad
    constructor
    · intro K fs st
      unfold readModel
      rw [if_neg hbad]
    · intro st
      unfold writeModel
      rw [if_neg hbad]
  · intro hgood
    refine ⟨?_, ?_, ?_⟩
    · intro K fs st e
      constructor
      · unfold readModel
        rw [if_pos hgood]
        cases hf : fs p with
        | none => simp
        | some f =>
          cases hu : alookup map_3mf_to_b3d_unit f.modelUnit with
          | none => simp [hu]
          | some u =>
            cases hr : reconAll K (st.meshes ++ f.meshObjects) with
            | none => simp [hu, hr]
            | some shapes => simp [hu, hr]
      · unfold writeModel
        rw [if_pos hgood]
        simp
    · intro K fs st hnone
      unfold readModel
      rw [if_pos hgood, hnone]
    · intro st
      unfold writeModel
      rw [if_pos hgood]

/-- C8, witness: a rejected extension and a missing file at an accepted
extension, both through the theorem. -/
theorem C8_witness :
    (¬(splitextExt "model.obj" = ".3mf" ∨ splitextExt "model.obj" = ".stl") ∧
      (∀ st : MState, writeModel st "model.obj" =
        .error (.valueError (splitextExt "model.obj")))) ∧
    ((splitextExt "a.stl" = ".3mf" ∨ splitextExt "a.stl" = ".stl") ∧
      readModel k1 (fun _ => none) st0 "a.stl" = .error .fileNotFound) :=
  ⟨⟨by decide, ((C8_extension_errors "model.obj").1 (by decide)).2⟩,
    ⟨Or.inr (by decide),
      (((C8_extension_errors "a.stl").2 (Or.inr (by decide))).2.1 k1 (fun _ => none) st0 rfl)⟩⟩

/-- Positions below the original heap length are untouched by one
deepcopy-then-tessellate step. -/
theorem heap_step_getD (f : ShapeObj → ShapeObj) (h : Heap) (r i : ℕ)
    (hi : i < h.length) :
    (tessellateAt f (deepcopy h r).1 (deepcopy h r).2).getD i default = h.getD i default := by
  show ((h ++ [h.getD r default]).set h.length
      (f ((h ++ [h.getD r default]).getD h.length default))).getD i default
    = h.getD i default
  generalize f ((h ++ [h.getD r default]).getD h.length default) = w
  generalize h.getD r default = x
  rw [List.getD_eq_getElem?_getD, List.getElem?_set_ne (by omega),
    List.getElem?_append_left hi, ← List.getD_eq_getElem?_getD]

/-- C9, confirmed: tessellation inside add_shape runs only on deep copies,
so after processing any list of leaf references every object that existed
before the call is unchanged on the heap, whatever mutation tessellation
performs. -/
theorem C9_source_shape_unchanged (f : ShapeObj → ShapeObj) (h : Heap)
    (refs : List ℕ) (i : ℕ) (hi : i < h.length) :
    (addShapeRefs f h refs).getD i default = h.getD i default := by
  induction refs generalizing h with
  | nil => rfl
  | cons r rs ih =>
    show (addShapeRefs f (tessellateAt f (deepcopy h r).1 (deepcopy h r).2) rs).getD i default
      = h.getD i default
    have hlen : h.length ≤ (tessellateAt f (deepcopy h r).1 (deepcopy h r).2).length := by
      simp [tessellateAt, deepcopy]
    rw [ih _ (lt_of_lt_of_le hi hlen), heap_step_getD f h r i hi]

/-- C9, witness: a mutating tessellation oracle leaves the original object
intact. -/
theorem C9_witness :
    0 < 1 ∧
    (addShapeRefs (fun s => ⟨s.geom, s.cache + 1⟩) [⟨5, 0⟩] [0]).getD 0 default =
      ([⟨5, 0⟩] : Heap).getD 0 default :=
  ⟨Nat.zero_lt_one,
    C9_source_shape_unchanged (fun s => ⟨s.geom, s.cache + 1⟩) [⟨5, 0⟩] [0] 0 Nat.zero_lt_one⟩

theorem reconAll_append (K : SewKernel) (a b : List (List Pt × List Tri)) :
    reconAll K (a ++ b) =
      (reconAll K a).bind (fun ra => (reconAll K b).map (fun rb => ra ++ rb)) := by
  induction a with
  | nil =>
    cases hb2 : reconAll K b <;> simp [reconAll, hb2]
  | cons g gs ih =>
    show reconAll K (g :: (gs ++ b)) = _
    cases hc : getShapeCode K g.1 g.2 with
    | none => simp [reconAll, hc]
    | some r =>
      cases ha : reconAll K gs with
      | none =>
        simp [reconAll, hc, ha, ih]
      | some ra =>
        cases hb2 : reconAll K b with
        | none => simp [reconAll, hc, ha, hb2, ih]
        | some rb => simp [reconAll, hc, ha, hb2, ih]

theorem reconAll_length {K : SewKernel} :
    ∀ {gs : List (List Pt × List Tri)} {rs : List Recon},
      reconAll K gs = some rs → rs.length = gs.length := by
  intro gs
  induction gs with
  | nil =>
    intro rs h
    simp only [reconAll] at h
    rw [← Option.some_inj.mp h]
    rfl
  | cons g gt ih =>
    intro rs h
    simp only [reconAll, Option.bind_eq_bind] at h
    cases hc : getShapeCode K g.1 g.2 with
    | none => rw [hc] at h; simp at h
    | some r =>
      rw [hc] at h
      simp only [Option.some_bind] at h
      cases ha : reconAll K gt with
      | none => rw [ha] at h; simp at h
      | some ra =>
        rw [ha] at h
        simp only [Option.some_bind, Option.pure_def, Option.some_inj] at h
        rw [← h]
        simp [ih ha]

/-- C10, confirmed: read appends the file's mesh objects to the instance's
accumulated mesh list and reconstructs one shape per mesh of the WHOLE
list, so the k shapes already stored (by add_shape or an earlier read) are
reconstructed and returned again, followed by the new file's shapes. -/
theorem C10_read_returns_prior (K : SewKernel) (fs : String → Option File3mf)
    (st : MState) (p : String) (f : File3mf) (priorR newR : List Recon)
    (h1 : splitextExt p = ".3mf" ∨ splitextExt p = ".stl")
    (h2 : fs p = some f)
    (h3 : reconAll K st.meshes = some priorR)
    (h4 : reconAll K f.meshObjects = some newR) :
    ∃ u : BUnit, alookup map_3mf_to_b3d_unit f.modelUnit = some u ∧
      readModel K fs st p = .ok
        ({ st with
            unit := u
            modelUnit := f.modelUnit
            meshes := st.meshes ++ f.meshObjects }, priorR ++ newR) ∧
      priorR.length = st.meshes.length := by
  have hu : ∃ u : BUnit, alookup map_3mf_to_b3d_unit f.modelUnit = some u := by
    cases hm : f.modelUnit <;> exact ⟨_, rfl⟩
  obtain ⟨u, hu⟩ := hu
  refine ⟨u, hu, ?_, reconAll_length h3⟩
  have hra : reconAll K (st.meshes ++ f.meshObjects) = some (priorR ++ newR) := by
    rw [reconAll_append, h3, h4]
    rfl
  unfold readModel
  rw [if_pos h1, h2]
  simp only [hu, hra]

/-- C10, witness: an instance already holding one mesh returns two shapes
from a one-mesh file, the first being the prior mesh's reconstruction. -/
theorem C10_witness :
    (splitextExt "b.3mf" = ".3mf" ∨ splitextExt "b.3mf" = ".stl") ∧
    ∃ u : BUnit,
      alookup map_3mf_to_b3d_unit (ModelUnit3mf.Inch) = some u ∧
      readModel k1 (fun _ => some ⟨ModelUnit3mf.Inch, [([pt0], [])]⟩)
        { st0 with meshes := [([], [])] } "b.3mf" = .ok
        ({ { st0 with meshes := [([], [])] } with
            unit := u
            modelUnit := ModelUnit3mf.Inch
            meshes := [([], [])] ++ [([pt0], [])] },
          [Recon.shellOf 0] ++ [Recon.shellOf 0]) ∧
      ([Recon.shellOf 0] : List Recon).length =
        ({ st0 with meshes := [([], [])] } : MState).meshes.length :=
  ⟨Or.inl (by decide),
    C10_read_returns_prior k1 (fun _ => some ⟨ModelUnit3mf.Inch, [([pt0], [])]⟩)
      { st0 with meshes := [([], [])] } "b.3mf" ⟨ModelUnit3mf.Inch, [([pt0], [])]⟩
      [Recon.shellOf 0] [Recon.shellOf 0] (Or.inl (by decide)) rfl rfl rfl⟩

end MesherV

